import Mathlib

/-!
Shallow embedding of the git-module repository (src/repo.go).

The module is a process-invocation wrapper around the external git binary.
Pure parts (argument assembly, log splitting, path manipulation) are
translated directly from the Go source.  External effects (the subprocess
runner, os.MkdirAll, filepath.Abs, the isDir check) are represented as an
abstract `World` of effect functions, and every repository operation
returns, besides its Go result, the list of effect `Event`s it performed,
in order, so that claims about what is invoked (and what is not) can be
stated and proved.
-/

/-- Go errors are modelled by their message string (errors.New payload). -/
abbrev GoError := String

/-- Modelled from the spec: the command builder (command.go, not under src/)
"accepts a base subcommand name and a variadic list of arguments; supports
incremental appending".  A Command is its accumulated argument list. -/
structure Command where
  args : List String
deriving DecidableEq

/-- Modelled from the spec: NewCommand starts a command from the given
subcommand name and initial arguments. -/
def NewCommand (args : List String) : Command := ⟨args⟩

/-- Modelled from the spec: AddArguments appends arguments to the command. -/
def Command.AddArguments (c : Command) (more : List String) : Command :=
  ⟨c.args ++ more⟩

/-- One observable external effect performed by an operation. -/
inductive Event where
  | mkdirAll (dir : String)
  | runInDir (cmd : Command) (dir : String)
  | runTimeout (cmd : Command) (timeout : Int)
  | runInDirTimeout (cmd : Command) (timeout : Int) (dir : String)
deriving DecidableEq

/-- Modelled from the spec: the external effects used by src/repo.go whose
implementations are not under src/ — the subprocess runner (RunInDir,
RunTimeout, RunInDirTimeout of command.go), os.MkdirAll, filepath.Abs and
the isDir helper (utils.go).  `mkdirAll` returns `none` on success and
`some e` on failure; the runners return the subprocess stdout or an error;
`abs` is path absolutization; `isDir` tells whether the path exists and is
a directory.  Timeouts are Go time.Duration values, modelled as integers. -/
structure World where
  mkdirAll : String → Option GoError
  runInDir : Command → String → Except GoError String
  runTimeout : Command → Int → Except GoError String
  runInDirTimeout : Command → Int → String → Except GoError String
  abs : String → Except GoError String
  isDir : String → Bool

/-- Converts a runner result into the error value a Go operation returns
(`_, err := cmd.Run...; return err`). -/
def errOf (r : Except GoError String) : Option GoError :=
  match r with
  | .error e => some e
  | .ok _ => none

/-- Splits a byte sequence around every occurrence of the separator byte,
as Go bytes.Split does for a one-byte separator: the result always has one
more element than the number of separators, and empty segments are kept. -/
def splitOnChar (sep : Char) : List Char → List (List Char)
  | [] => [[]]
  | c :: rest =>
    match splitOnChar sep rest with
    | [] => [[c]]
    | p :: ps => if c = sep then [] :: p :: ps else (c :: p) :: ps

/-- Stack-based core of Go path.Clean: processes the slash-separated
components left to right, dropping empty and "." components, resolving
".." against the stack (or keeping it when not rooted), as the lazybuf
algorithm of Go's path package does. -/
def cleanStack (rooted : Bool) : List (List Char) → List (List Char) → List (List Char)
  | acc, [] => acc.reverse
  | acc, comp :: rest =>
    if comp = [] ∨ comp = ['.'] then cleanStack rooted acc rest
    else if comp = ['.', '.'] then
      match acc with
      | [] => if rooted then cleanStack rooted [] rest else cleanStack rooted [['.', '.']] rest
      | top :: acc2 =>
        if top = ['.', '.'] then cleanStack rooted (comp :: acc) rest
        else cleanStack rooted acc2 rest
    else cleanStack rooted (comp :: acc) rest

/-- Go path.Clean: lexically shortest equivalent of the slash-separated
path; the empty result becomes "." (or "/" when rooted). -/
def pathClean (p : String) : String :=
  let cs := p.data
  let rooted : Bool := match cs with | '/' :: _ => true | _ => false
  let comps := cleanStack rooted [] (splitOnChar '/' cs)
  if comps.isEmpty then (if rooted then "/" else ".")
  else (if rooted then "/" else "") ++ String.intercalate "/" (comps.map String.mk)

/-- The prefix of the path up to and including its last slash (empty when
there is no slash), as Go path.Split produces for the directory part. -/
def takeThroughLastSlash (cs : List Char) : List Char :=
  (cs.reverse.dropWhile (fun c => c ≠ '/')).reverse

/-- Go path.Dir: everything but the last element of the path, cleaned. -/
def pathDir (p : String) : String :=
  pathClean (String.mk (takeThroughLastSlash p.data))

/-- Modelled from the spec: the result cache (cache.go, not under src/) is
"a mapping from string key to previously computed object"; represented as
an association list, most recent binding first. -/
def objectCache (α : Type) : Type := List (String × α)

/-- Modelled from the spec: a freshly created cache is empty. -/
def newObjectCache {α : Type} : objectCache α := []

/-- Modelled from the spec: cache lookup by string key. -/
def objectCache.get {α : Type} (oc : objectCache α) (id : String) : Option α :=
  List.lookup id oc

/-- Modelled from the spec: cache store by string key. -/
def objectCache.set {α : Type} (oc : objectCache α) (id : String) (obj : α) : objectCache α :=
  (id, obj) :: oc

/-- Repository (src/repo.go): a working-directory path plus the two lazy
lookup caches, polymorphic in the commit and tag object types. -/
structure Repository (C T : Type) where
  Path : String
  commitCache : objectCache C
  tagCache : objectCache T

/-- Modelled from the spec: GetCommit (commit.go, not under src/) resolves
a commit identifier via the cache/lookup path — on a cache hit it returns
the memoized commit without a subprocess invocation; on a miss it runs the
subprocess/parse path (abstracted as `resolve`), stores the result on
success, and either way performs one subprocess invocation.  Returns the
result, the updated repository handle, and the number of subprocess
invocations performed. -/
def GetCommit {C T : Type} (resolve : String → Except GoError C)
    (repo : Repository C T) (id : String) :
    Except GoError C × Repository C T × Nat :=
  match repo.commitCache.get id with
  | some c => (.ok c, repo, 0)
  | none =>
    match resolve id with
    | .error e => (.error e, repo, 1)
    | .ok c => (.ok c, { repo with commitCache := repo.commitCache.set id c }, 1)

/-- The resolution loop of parsePrettyFormatLogToList: resolves the parts
in order via `getCommit` (which threads a state, for cache updates or
instrumentation), stopping at the first error; on success conses the
commits in order, as the Go loop pushes them back. -/
def parseLogLoop {C σ : Type} (getCommit : String → σ → Except GoError C × σ) :
    List (List Char) → σ → Except GoError (List C) × σ
  | [], s => (.ok [], s)
  | part :: rest, s =>
    match getCommit (String.mk part) s with
    | (.error e, s2) => (.error e, s2)
    | (.ok c, s2) =>
      match parseLogLoop getCommit rest s2 with
      | (.error e, s3) => (.error e, s3)
      | (.ok cs, s3) => (.ok (c :: cs), s3)

/-- parsePrettyFormatLogToList (src/repo.go): returns the empty list for
empty output; otherwise splits the bytes on newline and resolves every
segment via repo.GetCommit (abstracted as the stateful `getCommit`),
returning (nil, err) — modelled (none, some err) — as soon as one segment
fails, and (list, nil) — modelled (some list, none) — otherwise. -/
def parsePrettyFormatLogToList {C σ : Type}
    (getCommit : String → σ → Except GoError C × σ)
    (logs : List Char) (s : σ) : (Option (List C) × Option GoError) × σ :=
  if logs = [] then ((some [], none), s)
  else
    match parseLogLoop getCommit (splitOnChar '\n' logs) s with
    | (.error e, s2) => ((none, some e), s2)
    | (.ok cs, s2) => ((some cs, none), s2)

/-- InitRepository (src/repo.go): creates the repository path — the Go code
discards os.MkdirAll's result — then runs "init" (plus "--bare") there and
returns that invocation's error. -/
def InitRepository (w : World) (repoPath : String) (bare : Bool) :
    List Event × Option GoError :=
  let cmd := NewCommand ["init"]
  let cmd := if bare then cmd.AddArguments ["--bare"] else cmd
  ([Event.mkdirAll repoPath, Event.runInDir cmd repoPath],
    errOf (w.runInDir cmd repoPath))

/-- OpenRepository (src/repo.go): absolutizes the path, fails with "no such
file or directory" unless it is a directory, and otherwise returns a
Repository with fresh (empty) caches. -/
def OpenRepository {C T : Type} (w : World) (repoPath : String) :
    Except GoError (Repository C T) :=
  match w.abs repoPath with
  | .error err => .error err
  | .ok absPath =>
    if ! w.isDir absPath then .error "no such file or directory"
    else .ok { Path := absPath, commitCache := newObjectCache, tagCache := newObjectCache }

structure CloneRepoOptions where
  Mirror : Bool
  Bare : Bool
  Quiet : Bool
  Timeout : Int

/-- Clone (src/repo.go): creates the target's parent directory, returning
its error on failure; otherwise assembles "clone" with the --mirror,
--bare, --quiet flags and the source and target paths, normalizes a
non-positive timeout to -1, and runs with that timeout. -/
def Clone (w : World) (fromPath toPath : String) (opts : CloneRepoOptions) :
    List Event × Option GoError :=
  let toDir := pathDir toPath
  match w.mkdirAll toDir with
  | some e => ([Event.mkdirAll toDir], some e)
  | none =>
    let cmd := NewCommand ["clone"]
    let cmd := if opts.Mirror then cmd.AddArguments ["--mirror"] else cmd
    let cmd := if opts.Bare then cmd.AddArguments ["--bare"] else cmd
    let cmd := if opts.Quiet then cmd.AddArguments ["--quiet"] else cmd
    let cmd := cmd.AddArguments [fromPath, toPath]
    let timeout := if opts.Timeout ≤ 0 then (-1 : Int) else opts.Timeout
    ([Event.mkdirAll toDir, Event.runTimeout cmd timeout],
      errOf (w.runTimeout cmd timeout))

structure PullRemoteOptions where
  All : Bool
  Timeout : Int

/-- Pull (src/repo.go): assembles "pull" (plus "--all"), normalizes a
non-positive timeout to -1, and runs in the repository path with that
timeout. -/
def Pull (w : World) (repoPath : String) (opts : PullRemoteOptions) :
    List Event × Option GoError :=
  let cmd := NewCommand ["pull"]
  let cmd := if opts.All then cmd.AddArguments ["--all"] else cmd
  let timeout := if opts.Timeout ≤ 0 then (-1 : Int) else opts.Timeout
  ([Event.runInDirTimeout cmd timeout repoPath],
    errOf (w.runInDirTimeout cmd timeout repoPath))

structure FetchRemoteOptions where
  Prune : Bool
  Timeout : Int

/-- Fetch (src/repo.go): assembles "fetch" (plus "--prune"), normalizes a
non-positive timeout to -1, and runs in the repository path with that
timeout. -/
def Fetch (w : World) (repoPath : String) (opts : FetchRemoteOptions) :
    List Event × Option GoError :=
  let cmd := NewCommand ["fetch"]
  let cmd := if opts.Prune then cmd.AddArguments ["--prune"] else cmd
  let timeout := if opts.Timeout ≤ 0 then (-1 : Int) else opts.Timeout
  ([Event.runInDirTimeout cmd timeout repoPath],
    errOf (w.runInDirTimeout cmd timeout repoPath))

structure RebaseOptions where
  Branch : String

/-- Rebase (src/repo.go): "rebase" plus the branch when non-empty, run in
the repository path. -/
def Rebase (w : World) (repoPath : String) (opts : RebaseOptions) :
    List Event × Option GoError :=
  let cmd := NewCommand ["rebase"]
  let cmd := if opts.Branch ≠ "" then cmd.AddArguments [opts.Branch] else cmd
  ([Event.runInDir cmd repoPath], errOf (w.runInDir cmd repoPath))

structure PushOptions where
  Force : Bool

/-- Push (src/repo.go): "push" plus "--force" when forced, then the remote
and the branch, run in the repository path. -/
def Push (w : World) (repoPath remote branch : String) (opts : PushOptions) :
    List Event × Option GoError :=
  let cmd := NewCommand ["push"]
  let cmd := if opts.Force then cmd.AddArguments ["--force"] else cmd
  let cmd := cmd.AddArguments [remote]
  let cmd := cmd.AddArguments [branch]
  ([Event.runInDir cmd repoPath], errOf (w.runInDir cmd repoPath))

/-- ResetHEAD (src/repo.go): "reset" plus "--hard" when hard, then the
revision, run in the repository path. -/
def ResetHEAD (w : World) (repoPath : String) (hard : Bool) (revision : String) :
    List Event × Option GoError :=
  let cmd := NewCommand ["reset"]
  let cmd := if hard then cmd.AddArguments ["--hard"] else cmd
  let cmd := cmd.AddArguments [revision]
  ([Event.runInDir cmd repoPath], errOf (w.runInDir cmd repoPath))

/-- Checkout (src/repo.go): "checkout" plus the version, run in the
repository path. -/
def Checkout (w : World) (repoPath version : String) :
    List Event × Option GoError :=
  let cmd := NewCommand ["checkout", version]
  ([Event.runInDir cmd repoPath], errOf (w.runInDir cmd repoPath))

/-- A concrete world in which every effect succeeds, for witnesses. -/
def testWorld : World where
  mkdirAll := fun _ => none
  runInDir := fun _ _ => .ok ""
  runTimeout := fun _ _ => .ok ""
  runInDirTimeout := fun _ _ _ => .ok ""
  abs := fun s => .ok s
  isDir := fun _ => true

/-- A concrete world whose directory creation fails, for witnesses. -/
def testWorldMkdirFail : World :=
  { testWorld with mkdirAll := fun _ => some "mkdir failed" }

theorem splitOnChar_ne_nil (sep : Char) (l : List Char) : splitOnChar sep l ≠ [] := by
  cases l with
  | nil => simp [splitOnChar]
  | cons c rest =>
    simp only [splitOnChar]
    split
    · simp
    · split <;> simp

theorem splitOnChar_append_sep (sep : Char) (xs : List Char) :
    splitOnChar sep (xs ++ [sep]) = splitOnChar sep xs ++ [[]] := by
  induction xs with
  | nil => simp [splitOnChar]
  | cons c rest ih =>
    obtain ⟨p, ps, hps⟩ : ∃ p ps, splitOnChar sep rest = p :: ps := by
      cases h : splitOnChar sep rest with
      | nil => exact absurd h (splitOnChar_ne_nil sep rest)
      | cons p ps => exact ⟨p, ps, rfl⟩
    have ih2 : splitOnChar sep (rest.append [sep]) = splitOnChar sep rest ++ [[]] := ih
    simp only [List.cons_append, splitOnChar, ih, ih2, hps, List.cons_append]
    split <;> simp

theorem parseLogLoop_error_of_mem {C σ : Type} (r : String → Except GoError C)
    (parts : List (List Char)) (part : List Char) (hmem : part ∈ parts)
    (e : GoError) (hfail : r (String.mk part) = .error e) (s : σ) :
    ∃ e2 s2, parseLogLoop (fun id st => (r id, st)) parts s = (.error e2, s2) := by
  induction parts generalizing s with
  | nil => cases hmem
  | cons p rest ih =>
    cases hr : r (String.mk p) with
    | error e0 => exact ⟨e0, s, by simp [parseLogLoop, hr]⟩
    | ok c =>
      have hpr : part ∈ rest := by
        rcases List.mem_cons.mp hmem with h | h
        · subst h; rw [hfail] at hr; cases hr
        · exact h
      obtain ⟨e2, s2, h2⟩ := ih hpr s
      exact ⟨e2, s2, by simp [parseLogLoop, hr, h2]⟩

/-- C1: a log output with at least one line whose resolution of some
newline-separated identifier line fails makes parsePrettyFormatLogToList
return an error with no result list at all (none, not a partial list). -/
theorem parseLog_fails_entirely {C σ : Type} (r : String → Except GoError C)
    (logs : List Char) (hne : logs ≠ []) (part : List Char)
    (hmem : part ∈ splitOnChar '\n' logs) (e : GoError)
    (hfail : r (String.mk part) = .error e) (s : σ) :
    ∃ e2, (parsePrettyFormatLogToList (fun id st => (r id, st)) logs s).1 = (none, some e2) := by
  obtain ⟨e2, s2, h2⟩ := parseLogLoop_error_of_mem r _ part hmem e hfail s
  exact ⟨e2, by simp [parsePrettyFormatLogToList, hne, h2]⟩

theorem parseLog_fails_entirely_witness :
    ∃ e2, (parsePrettyFormatLogToList
        (fun id (st : Unit) => ((fun _ => Except.error "boom" : String → Except GoError Nat) id, st))
        ['b', 'a', 'd'] ()).1 = (none, some e2) :=
  parseLog_fails_entirely (fun _ => Except.error "boom") ['b', 'a', 'd'] (by decide)
    ['b', 'a', 'd'] (by decide) "boom" rfl ()

/-- C4: on empty log output, parsePrettyFormatLogToList returns an empty
list and no error, for every resolver and state — in particular the state
is untouched, so no commit identifier resolution is attempted. -/
theorem parseLog_empty {C σ : Type} (getCommit : String → σ → Except GoError C × σ) (s : σ) :
    parsePrettyFormatLogToList getCommit [] s = ((some [], none), s) := rfl

theorem parseLogLoop_log_all {C : Type} (c0 : C) (parts : List (List Char)) (s : List String) :
    parseLogLoop (fun id st => (Except.ok c0, st ++ [id])) parts s =
      (.ok (parts.map fun _ => c0), s ++ parts.map String.mk) := by
  induction parts generalizing s with
  | nil => simp [parseLogLoop]
  | cons p rest ih => simp [parseLogLoop, ih]

/-- C9: on non-empty output, parsePrettyFormatLogToList attempts one
resolution per newline-separated segment, empty segments included: with an
always-succeeding resolver that records each requested identifier, output
ending in a newline yields exactly one request per segment, among them the
empty-string identifier. -/
theorem parseLog_trailing_newline {C : Type} (c0 : C) (l : List Char) :
    (parsePrettyFormatLogToList (fun id st => (Except.ok c0, st ++ [id]))
        (l ++ ['\n']) []).2 = (splitOnChar '\n' (l ++ ['\n'])).map String.mk ∧
    "" ∈ (parsePrettyFormatLogToList (fun id st => (Except.ok c0, st ++ [id]))
        (l ++ ['\n']) []).2 := by
  have hne : l ++ ['\n'] ≠ [] := by simp
  have hsplit := splitOnChar_append_sep '\n' l
  have hloop := parseLogLoop_log_all c0 (splitOnChar '\n' (l ++ ['\n'])) []
  have h2 : (parsePrettyFormatLogToList (fun id st => (Except.ok c0, st ++ [id]))
      (l ++ ['\n']) []).2 = (splitOnChar '\n' (l ++ ['\n'])).map String.mk := by
    simp [parsePrettyFormatLogToList, hne, hloop]
  refine ⟨h2, ?_⟩
  rw [h2, hsplit, List.map_append]
  refine List.mem_append_right _ ?_
  have hmk : String.mk [] = "" := rfl
  simp [hmk]

/-- C2: Clone, Pull and Fetch invoke the subprocess runner with timeout -1
whenever the given timeout is non-positive, and with the given timeout
unchanged whenever it is positive. -/
theorem timeout_normalized (w : World) (fromPath toPath repoPath : String)
    (copts : CloneRepoOptions) (popts : PullRemoteOptions) (fopts : FetchRemoteOptions)
    (hmk : w.mkdirAll (pathDir toPath) = none) :
    (∃ c, (Clone w fromPath toPath copts).1 =
        [Event.mkdirAll (pathDir toPath),
         Event.runTimeout c (if copts.Timeout ≤ 0 then -1 else copts.Timeout)]) ∧
    (∃ c, (Pull w repoPath popts).1 =
        [Event.runInDirTimeout c (if popts.Timeout ≤ 0 then -1 else popts.Timeout) repoPath]) ∧
    (∃ c, (Fetch w repoPath fopts).1 =
        [Event.runInDirTimeout c (if fopts.Timeout ≤ 0 then -1 else fopts.Timeout) repoPath]) := by
  refine ⟨?_, ?_, ?_⟩
  · simp only [Clone, hmk]
    exact ⟨_, rfl⟩
  · exact ⟨_, rfl⟩
  · exact ⟨_, rfl⟩

theorem timeout_normalized_witness :
    (∃ c, (Clone testWorld "a" "b/c" ⟨false, false, false, 0⟩).1 =
        [Event.mkdirAll (pathDir "b/c"),
         Event.runTimeout c (if (0 : Int) ≤ 0 then -1 else 0)]) ∧
    (∃ c, (Pull testWorld "r" ⟨false, 5⟩).1 =
        [Event.runInDirTimeout c (if (5 : Int) ≤ 0 then -1 else 5) "r"]) ∧
    (∃ c, (Fetch testWorld "r" ⟨true, -3⟩).1 =
        [Event.runInDirTimeout c (if (-3 : Int) ≤ 0 then -1 else -3) "r"]) :=
  timeout_normalized testWorld "a" "b/c" "r" ⟨false, false, false, 0⟩ ⟨false, 5⟩ ⟨true, -3⟩ rfl

/-- C3: OpenRepository, once the path is absolutized, fails with the
"no such file or directory" error when the path is not an existing
directory, and returns a Repository handle for the absolute path (with
fresh caches) and no error when it is. -/
theorem openRepository_checks_dir {C T : Type} (w : World) (p absPath : String)
    (habs : w.abs p = .ok absPath) :
    OpenRepository w p =
      (if w.isDir absPath then
        Except.ok (⟨absPath, newObjectCache, newObjectCache⟩ : Repository C T)
      else Except.error "no such file or directory") := by
  unfold OpenRepository
  rw [habs]
  cases h : w.isDir absPath <;> simp [h]

theorem openRepository_checks_dir_witness :
    OpenRepository (C := Nat) (T := Nat) testWorld "x" =
      (if testWorld.isDir "x" then
        Except.ok (⟨"x", newObjectCache, newObjectCache⟩ : Repository Nat Nat)
      else Except.error "no such file or directory") :=
  openRepository_checks_dir testWorld "x" "x" rfl

/-- C5: Clone's first effect is creating the parent directory (Go
path.Dir) of the target; when that creation fails, Clone returns exactly
the creation error and performs no further effect — in particular it never
invokes the subprocess. -/
theorem clone_parent_dir_first (w : World) (fromPath toPath : String)
    (opts : CloneRepoOptions) :
    (Clone w fromPath toPath opts).1.head? = some (Event.mkdirAll (pathDir toPath)) ∧
    ∀ e, w.mkdirAll (pathDir toPath) = some e →
      Clone w fromPath toPath opts = ([Event.mkdirAll (pathDir toPath)], some e) := by
  constructor
  · cases h : w.mkdirAll (pathDir toPath) with
    | none => simp [Clone, h]
    | some e0 => simp [Clone, h]
  · intro e he
    simp [Clone, he]

theorem clone_parent_dir_first_witness :
    (Clone testWorldMkdirFail "a" "b/c" ⟨false, false, false, 0⟩).1.head? =
        some (Event.mkdirAll (pathDir "b/c")) ∧
    Clone testWorldMkdirFail "a" "b/c" ⟨false, false, false, 0⟩ =
        ([Event.mkdirAll (pathDir "b/c")], some "mkdir failed") :=
  ⟨(clone_parent_dir_first testWorldMkdirFail "a" "b/c" ⟨false, false, false, 0⟩).1,
   (clone_parent_dir_first testWorldMkdirFail "a" "b/c" ⟨false, false, false, 0⟩).2
     "mkdir failed" rfl⟩

/-- C6: the assembled argument lists are exactly as documented — Clone:
"clone", then "--mirror" iff Mirror, "--bare" iff Bare, "--quiet" iff
Quiet, then source and target; Push: "push", then "--force" iff Force,
then remote, then branch; ResetHEAD: "reset", then "--hard" iff hard,
then the revision. -/
theorem command_flag_assembly (w : World)
    (fromPath toPath repoPath remote branch revision : String)
    (copts : CloneRepoOptions) (popts : PushOptions) (hard : Bool)
    (hmk : w.mkdirAll (pathDir toPath) = none) :
    (∃ tmo, (Clone w fromPath toPath copts).1 =
        [Event.mkdirAll (pathDir toPath),
         Event.runTimeout
           ⟨["clone"] ++ (if copts.Mirror then ["--mirror"] else []) ++
            (if copts.Bare then ["--bare"] else []) ++
            (if copts.Quiet then ["--quiet"] else []) ++ [fromPath, toPath]⟩ tmo]) ∧
    (Push w repoPath remote branch popts).1 =
        [Event.runInDir
          ⟨["push"] ++ (if popts.Force then ["--force"] else []) ++ [remote, branch]⟩
          repoPath] ∧
    (ResetHEAD w repoPath hard revision).1 =
        [Event.runInDir
          ⟨["reset"] ++ (if hard then ["--hard"] else []) ++ [revision]⟩ repoPath] := by
  refine ⟨⟨if copts.Timeout ≤ 0 then -1 else copts.Timeout, ?_⟩, ?_, ?_⟩
  · rcases copts with ⟨m, b, q, t⟩
    cases m <;> cases b <;> cases q <;>
      simp [Clone, hmk, NewCommand, Command.AddArguments]
  · rcases popts with ⟨f⟩
    cases f <;> simp [Push, NewCommand, Command.AddArguments]
  · cases hard <;> simp [ResetHEAD, NewCommand, Command.AddArguments]

theorem command_flag_assembly_witness :
    (∃ tmo, (Clone testWorld "a" "b/c" ⟨true, false, true, 7⟩).1 =
        [Event.mkdirAll (pathDir "b/c"),
         Event.runTimeout
           ⟨["clone"] ++ (if true then ["--mirror"] else []) ++
            (if false then ["--bare"] else []) ++
            (if true then ["--quiet"] else []) ++ ["a", "b/c"]⟩ tmo]) ∧
    (Push testWorld "r" "origin" "main" ⟨true⟩).1 =
        [Event.runInDir
          ⟨["push"] ++ (if true then ["--force"] else []) ++ ["origin", "main"]⟩ "r"] ∧
    (ResetHEAD testWorld "r" false "HEAD~1").1 =
        [Event.runInDir ⟨["reset"] ++ (if false then ["--hard"] else []) ++ ["HEAD~1"]⟩ "r"] :=
  command_flag_assembly testWorld "a" "b/c" "r" "origin" "main" "HEAD~1"
    ⟨true, false, true, 7⟩ ⟨true⟩ false rfl

/-- C7: once GetCommit has answered a commit identifier successfully,
repeating the request on the resulting handle returns the memoized commit
with zero subprocess invocations and an unchanged handle; and the caches
of a freshly opened Repository are empty. -/
theorem getCommit_memoized {C T : Type} (resolve : String → Except GoError C)
    (repo repo2 : Repository C T) (id : String) (c : C) (n : Nat)
    (h : GetCommit resolve repo id = (.ok c, repo2, n))
    (w : World) (p : String) (repo0 : Repository C T)
    (h0 : OpenRepository w p = .ok repo0) :
    GetCommit resolve repo2 id = (.ok c, repo2, 0) ∧
    repo0.commitCache = newObjectCache ∧ repo0.tagCache = newObjectCache := by
  constructor
  · unfold GetCommit at h ⊢
    cases hc : repo.commitCache.get id with
    | some c0 =>
      rw [hc] at h
      simp only [Prod.mk.injEq, Except.ok.injEq] at h
      obtain ⟨rfl, rfl, -⟩ := h
      rw [hc]
    | none =>
      rw [hc] at h
      cases hr : resolve id with
      | error e => rw [hr] at h; simp at h
      | ok c0 =>
        rw [hr] at h
        simp only [Prod.mk.injEq, Except.ok.injEq] at h
        obtain ⟨rfl, hrepo2, -⟩ := h
        subst hrepo2
        simp [objectCache.get, objectCache.set, List.lookup]
  · unfold OpenRepository at h0
    cases habs : w.abs p with
    | error e => rw [habs] at h0; simp at h0
    | ok a =>
      rw [habs] at h0
      by_cases hd : w.isDir a = true
      · simp only [hd, Bool.not_true, Bool.false_eq_true, if_false, Except.ok.injEq] at h0
        subst h0
        exact ⟨rfl, rfl⟩
      · simp only [Bool.not_eq_true] at hd
        simp [hd] at h0

theorem getCommit_memoized_witness :
    GetCommit (fun _ => (Except.ok 0 : Except GoError Nat))
        (⟨"p", objectCache.set newObjectCache "a" 0, newObjectCache⟩ : Repository Nat Nat) "a" =
      (.ok 0, ⟨"p", objectCache.set newObjectCache "a" 0, newObjectCache⟩, 0) ∧
    (⟨"x", newObjectCache, newObjectCache⟩ : Repository Nat Nat).commitCache = newObjectCache ∧
    (⟨"x", newObjectCache, newObjectCache⟩ : Repository Nat Nat).tagCache = newObjectCache :=
  getCommit_memoized (fun _ => Except.ok 0) ⟨"p", newObjectCache, newObjectCache⟩
    ⟨"p", objectCache.set newObjectCache "a" 0, newObjectCache⟩ "a" 0 1 rfl
    testWorld "x" ⟨"x", newObjectCache, newObjectCache⟩ rfl

/-- C8: InitRepository discards the outcome of the directory-creation
step: two worlds that agree on the in-directory runner — but may disagree
arbitrarily on directory creation, one failing and one succeeding — give
identical results, so a creation failure is never reported. -/
theorem initRepository_ignores_mkdir (w w2 : World) (p : String) (bare : Bool)
    (hrun : w.runInDir = w2.runInDir) :
    InitRepository w p bare = InitRepository w2 p bare := by
  simp [InitRepository, hrun]

theorem initRepository_ignores_mkdir_witness :
    InitRepository testWorldMkdirFail "p" false = InitRepository testWorld "p" false :=
  initRepository_ignores_mkdir testWorldMkdirFail testWorld "p" false rfl

/-- C10: whenever OpenRepository succeeds, the Path of the returned
Repository is exactly the absolutized form of the requested path. -/
theorem openRepository_path_is_abs {C T : Type} (w : World) (p : String)
    (repo : Repository C T) (h : OpenRepository w p = .ok repo) :
    w.abs p = .ok repo.Path := by
  unfold OpenRepository at h
  cases habs : w.abs p with
  | error e => rw [habs] at h; cases h
  | ok a =>
    rw [habs] at h
    by_cases hd : w.isDir a = true
    · simp only [hd, Bool.not_true, Bool.false_eq_true, if_false, ite_false] at h
      cases h
      rfl
    · simp only [Bool.not_eq_true] at hd
      simp [hd] at h

theorem openRepository_path_is_abs_witness :
    testWorld.abs "x" =
      .ok (Repository.Path (⟨"x", newObjectCache, newObjectCache⟩ : Repository Nat Nat)) :=
  openRepository_path_is_abs testWorld "x" ⟨"x", newObjectCache, newObjectCache⟩ rfl
